import Mathlib

/-!
Shallow embedding of `src/python/tvm/contrib/cutlass/gen_gemm.py` (the CUTLASS GEMM
kernel generator / profiler) and proofs about its selection, feasibility-filter,
enumeration and default-kernel logic.

Conventions of the embedding:
* Python dicts describing a candidate kernel become the `OpRecord` structure; the
  keys added later by mutation (`runtime`, `opdef`) are `Option` fields that start
  as `none`.
* Runtimes are `RTime`: a finite rational or the infinite sentinel `RTime.inf`
  (`float("inf")` in the source, recorded for failed compilation/execution).
* The external profiler engine (`ProfilerEngine.evaluate`) is dependency-injected
  as a pure function `evaluate : OpRecord → Shape → RTime`, and the external
  catalog generator `GENERATOR_FUNC_TABLE[sm]` as `gen : Nat → List OpRecord`.
* Failure by Python exception (assertion failure, `ValueError` from `int`,
  `ValueError` from `min` on an empty sequence) is modelled with `Option` /
  explicit error constructors.
* Data types (`float16` and the like) are identified by `Nat` codes; kernel names
  are `List Char`.
-/

namespace CutlassGemm

/-- Problem shape (M, N, K); used as the selection-cache key. -/
abbrev Shape := Nat × Nat × Nat

/-- Measured runtime: a finite value or the infinite sentinel `float("inf")`. -/
inductive RTime where
  | fin : ℚ → RTime
  | inf : RTime
deriving DecidableEq

/-- Python `<` on runtimes (IEEE semantics for infinity, no NaN). -/
def RTime.ltb : RTime → RTime → Bool
  | .fin a, .fin b => decide (a < b)
  | .fin _, .inf => true
  | .inf, _ => false

/-- Tile description metadata (`library.TileDescription`, external): we keep the
`minimum_compute_capability` field that `gen_gemm.py` reads, plus an identifier
`tid` standing for the tile-shape/stages payload that distinguishes tiles. -/
structure TileDescription where
  minimum_compute_capability : Nat
  tid : Nat
deriving DecidableEq

/-- Tensor layouts used by `gen_gemm.py` (`library.LayoutType`, external). -/
inductive LayoutType where
  | RowMajor
  | ColumnMajor
deriving DecidableEq

/-- Operand description (`library.TensorDescription`, external): element type,
layout, alignment. -/
structure TensorDescription where
  element : Nat
  layout : LayoutType
  alignment : Nat
deriving DecidableEq

/-- Swizzling functors referenced by `gen_gemm.py` (`library.SwizzlingFunctor`). -/
inductive SwizzlingFunctor where
  | Identity1
  | Identity2
  | Identity4
  | Identity8
  | Batched
deriving DecidableEq

/-- Epilogue functors (`library.EpilogueFunctor`); `LinearCombination` is the
plain default used during enumeration. -/
inductive EpilogueFunctor where
  | LinearCombination
  | LinearCombinationBias
  | LinearCombinationRelu
  | LinearCombinationGelu
deriving DecidableEq

/-- The (element_a, element_b, element_c, element_epilogue) tuple unpacked from
`data_type` in `gen_gemm.py`. -/
structure DataTypeConfig where
  element_a : Nat
  element_b : Nat
  element_c : Nat
  element_epilogue : Nat
deriving DecidableEq

/-- A GEMM kernel configuration (`gemm_operation.GemmOperation`, external),
holding exactly the arguments `gen_gemm.py` constructs it with. -/
structure GemmOperation where
  arch : Nat
  tile_description : TileDescription
  A : TensorDescription
  B : TensorDescription
  C : TensorDescription
  element_epilogue : Nat
  epilogue_functor : EpilogueFunctor
  swizzling_functor : SwizzlingFunctor
deriving DecidableEq

/-- Digit used in the canonical name for an alignment value in {1, 2, 4, 8}. -/
def alignDigit (a : Nat) : Char :=
  if a = 1 then '1' else if a = 2 then '2' else if a = 4 then '4'
  else if a = 8 then '8' else '0'

/-- Modelled from the spec: `GemmOperation.procedural_name` lives in
`gemm_operation.py`, outside `src/`.  Per the spec the canonical name is a pure,
deterministic function of the configuration and "the naming convention encodes
exactly one alignment token per candidate".  We model the name as a body that
encodes the tile identifier and the A-operand element type (using letters that
can never start an `align` token), followed by the single trailing alignment
token `align` + digit. -/
def GemmOperation.procedural_name (op : GemmOperation) : List Char :=
  'k' :: (List.replicate op.tile_description.tid 't' ++
    ('_' :: (List.replicate op.A.element 'd' ++
      ('_' :: 'a' :: 'l' :: 'i' :: 'g' :: 'n' :: [alignDigit op.A.alignment]))))

/-- Modelled from the spec: `GemmOperation.leading_dim` (external, pure). -/
def GemmOperation.leading_dim (op : GemmOperation) : Nat :=
  op.A.alignment

/-- Modelled from the spec: `DataTypeTag` (external table mapping a data type to
its C++ tag); a pure injective map, modelled as the identity on type codes. -/
def DataTypeTag (t : Nat) : Nat := t

/-- Kernel source text emitted by `EmitGemmInstance().emit(op, no_beta_scaling,
batched)`.  Modelled from the spec: source emission is an external collaborator
that "must be pure and deterministic", so we represent the emitted text by the
exact inputs that determine it. -/
structure KernelSrc where
  op : GemmOperation
  no_beta_scaling : Bool
  batched : Bool
deriving DecidableEq

/-- Modelled from the spec: `EmitGemmInstance.emit` (external, pure). -/
def emitGemmInstance (op : GemmOperation) (no_beta_scaling batched : Bool) : KernelSrc :=
  ⟨op, no_beta_scaling, batched⟩

/-- Profiler source text emitted by `GemmProfilerEmitter().emit(...)`.  Modelled
from the spec: an external pure emitter; we record its exact arguments. -/
structure ProfSrc where
  name : List Char
  kernel : KernelSrc
  tag_a : Nat
  tag_b : Nat
  tag_c : Nat
  ld : Nat
deriving DecidableEq

/-- Modelled from the spec: `EPILOGUE_MAP` lives in `gen_tensor_op.py`, outside
`src/`.  Per the spec it is a fixed table mapping the requested operator/epilogue
kind to an epilogue functor and a flag for whether beta-scaling is skipped. -/
def EPILOGUE_MAP (op_type : Nat) : EpilogueFunctor × Bool :=
  if op_type = 0 then (EpilogueFunctor.LinearCombination, false)
  else if op_type = 1 then (EpilogueFunctor.LinearCombinationBias, true)
  else if op_type = 2 then (EpilogueFunctor.LinearCombinationRelu, true)
  else (EpilogueFunctor.LinearCombinationGelu, false)

/-- Embedding of `create_gemm_operator_with_epilogue` (gen_gemm.py lines 32-68):
rebuilds A (row-major), B (column-major), C (row-major) at the given alignment,
forces the batched swizzle when `batched`, looks up the epilogue for `op_type`,
and returns the procedural name and emitted source. -/
def create_gemm_operator_with_epilogue (op_type : Nat) (tile_description : TileDescription)
    (data_type : DataTypeConfig) (alignment : Nat) (swizzling_functor : SwizzlingFunctor)
    (batched : Bool) : List Char × KernelSrc :=
  let A : TensorDescription := ⟨data_type.element_a, LayoutType.RowMajor, alignment⟩
  let B : TensorDescription := ⟨data_type.element_b, LayoutType.ColumnMajor, alignment⟩
  let C : TensorDescription := ⟨data_type.element_c, LayoutType.RowMajor, alignment⟩
  let sw : SwizzlingFunctor := if batched then SwizzlingFunctor.Batched else swizzling_functor
  let ep : EpilogueFunctor × Bool := EPILOGUE_MAP op_type
  let op : GemmOperation := ⟨tile_description.minimum_compute_capability, tile_description,
    A, B, C, data_type.element_epilogue, ep.1, sw⟩
  (op.procedural_name, emitGemmInstance op ep.2 batched)

/-- A candidate-kernel dict as produced by `enumerate_gemm_operators`; `runtime`
and `opdef` are keys added later by mutation, hence `Option` starting at `none`. -/
structure OpRecord where
  src : ProfSrc
  op : GemmOperation
  name : List Char
  tile_description : TileDescription
  alignment : Nat
  data_type : DataTypeConfig
  swizzle_functor : SwizzlingFunctor
  runtime : Option RTime
  opdef : Option KernelSrc
deriving DecidableEq

/-- Loop body of `enumerate_gemm_operators` (gen_gemm.py lines 83-116): the
candidate dict built for one (tile description, alignment) pair, with the fixed
default epilogue `EpilogueFunctor.LinearCombination`. -/
def mkCandidate (data_type : DataTypeConfig) (swizzling_functor : SwizzlingFunctor)
    (tile_description : TileDescription) (alignment : Nat) : OpRecord :=
  let A : TensorDescription := ⟨data_type.element_a, LayoutType.RowMajor, alignment⟩
  let B : TensorDescription := ⟨data_type.element_b, LayoutType.ColumnMajor, alignment⟩
  let C : TensorDescription := ⟨data_type.element_c, LayoutType.RowMajor, alignment⟩
  let op : GemmOperation := ⟨tile_description.minimum_compute_capability, tile_description,
    A, B, C, data_type.element_epilogue, EpilogueFunctor.LinearCombination, swizzling_functor⟩
  { src := ⟨op.procedural_name, emitGemmInstance op false false,
      DataTypeTag data_type.element_a, DataTypeTag data_type.element_b,
      DataTypeTag data_type.element_c, op.leading_dim⟩,
    op := op,
    name := op.procedural_name,
    tile_description := tile_description,
    alignment := alignment,
    data_type := data_type,
    swizzle_functor := swizzling_functor,
    runtime := none,
    opdef := none }

/-- Embedding of `enumerate_gemm_operators` (gen_gemm.py lines 71-122): the
nested loops over tile descriptions (outer) and alignment constraints (inner).
The source's default swizzling functor is `SwizzlingFunctor.Identity8`; callers
here always pass it explicitly. -/
def enumerate_gemm_operators (tile_descriptions : List TileDescription)
    (data_type : DataTypeConfig) (alignment_constraints : List Nat)
    (swizzling_functor : SwizzlingFunctor) : List OpRecord :=
  tile_descriptions.flatMap (fun tile_description =>
    alignment_constraints.map (fun alignment =>
      mkCandidate data_type swizzling_functor tile_description alignment))

/-- Embedding of `DEFAULT_KERNELS` (gen_gemm.py lines 125-136): output data types
are coded 16 ↦ "float16" and 32 ↦ "float32"; both sm 75 and sm 80 map to the
same two kernel names in the source. -/
def DEFAULT_KERNELS (sm : Nat) (out_dtype : Nat) : Option (List Char) :=
  if sm = 75 ∨ sm = 80 then
    if out_dtype = 16 then some ("cutlass_tensorop_h1688gemm_128x64_32x2_tn_align1".toList)
    else if out_dtype = 32 then some ("cutlass_tensorop_s1688gemm_f16_64x64_32x2_tn_align1".toList)
    else none
  else none

/-- Character class `[1|2|4|8]` of the alignment regex `align[1|2|4|8]` used in
`check_align`; note the `|` characters inside a regex character class are
literal, so `|` is (faithfully) accepted as well. -/
def isAlignTok (c : Char) : Bool :=
  c = '1' || c = '2' || c = '4' || c = '8' || c = '|'

/-- One attempted match of the regex `align[1|2|4|8]` at the head of the string:
returns the captured class character when the head matches. -/
def headAlign (l : List Char) : Option Char :=
  if l.take 5 = ['a', 'l', 'i', 'g', 'n'] ∧ isAlignTok (l.getD 5 ' ') = true then
    some (l.getD 5 ' ')
  else none

/-- Left-to-right non-overlapping scan of `re.findall(r"align[1|2|4|8]", s)`:
`skip` counts characters still to consume from a previous 6-character match. -/
def findAlignsAux : Nat → List Char → List Char
  | _, [] => []
  | skip + 1, _ :: rest => findAlignsAux skip rest
  | 0, c :: rest =>
    match headAlign (c :: rest) with
    | some d => d :: findAlignsAux 5 rest
    | none => findAlignsAux 0 rest

/-- The class characters of all matches of `re.findall(r"align[1|2|4|8]", s)`,
in order; each Python match string is `"align" + c`, so we keep just `c`
(`aligns[i][-1]` in the source). -/
def findAligns (l : List Char) : List Char :=
  findAlignsAux 0 l

/-- Result of `check_align`: the returned bool, or the Python exception raised
(`assert len(aligns) == 1` failing, or `int` applied to a non-digit). -/
inductive CheckAlignResult where
  | assertionError
  | valueError
  | ok : Bool → CheckAlignResult
deriving DecidableEq

/-- Python `int(c)` for the single captured class character. -/
def tokVal (c : Char) : Option Nat :=
  if c = '1' then some 1 else if c = '2' then some 2 else if c = '4' then some 4
  else if c = '8' then some 8 else none

/-- Embedding of `CutlassGemmProfiler.check_align` (gen_gemm.py lines 148-157):
find all alignment tokens in the name, assert there is exactly one, and return
whether M, N and K are all divisible by the encoded alignment. -/
def check_align (op_name : List Char) (M N K : Nat) : CheckAlignResult :=
  match findAligns op_name with
  | [c] =>
    match tokVal c with
    | some align =>
      CheckAlignResult.ok (decide (M % align = 0) && decide (N % align = 0) &&
        decide (K % align = 0))
    | none => CheckAlignResult.valueError
  | _ => CheckAlignResult.assertionError

/-- Embedding of `CutlassGemmProfiler.get_default` (gen_gemm.py lines 159-177).
The two external lookups feeding it — the enumerated catalog
`GENERATOR_FUNC_TABLE[self.sm](out_dtype, op_creator=enumerate_gemm_operators)`
and the table entry `DEFAULT_KERNELS[self.sm][out_dtype]` — are passed in as
`ops` and `default_kernel_name`.  `none` models the failing
`assert len(filtered) == 1`. -/
def get_default (op_type : Nat) (ops : List OpRecord) (default_kernel_name : List Char)
    (batched : Bool) : Option OpRecord :=
  match ops.filter (fun op => decide (op.name = default_kernel_name)) with
  | [op] =>
    let nd := create_gemm_operator_with_epilogue op_type op.tile_description op.data_type
      op.alignment op.swizzle_functor batched
    some { op with name := nd.1, opdef := some nd.2 }
  | _ => none

/-- Lookup in the shape-keyed selection cache (`self.cache`, a Python dict keyed
by the tuple `(M, N, K)`); insertion is modelled by prepending, so the most
recent entry for a shape wins, as for dict assignment. -/
def lookupCache (cache : List (Shape × OpRecord)) (s : Shape) : Option OpRecord :=
  match cache.find? (fun p => decide (p.1 = s)) with
  | some p => some p.2
  | none => none

/-- The filtering step `list(filter(lambda op: self.check_align(op["name"], M, N,
K), ops))` of `select_op`; `none` models the exception propagating out of
`check_align` for a malformed name. -/
def filterAligned (M N K : Nat) : List OpRecord → Option (List OpRecord)
  | [] => some []
  | r :: rs =>
    match check_align r.name M N K with
    | CheckAlignResult.ok true => (filterAligned M N K rs).map (fun l => r :: l)
    | CheckAlignResult.ok false => filterAligned M N K rs
    | _ => none

/-- The key function `lambda i: i["runtime"]` of the `min` call in `select_op`.
On every path where `min` is reached the loop has stored a runtime in each dict;
a missing key (impossible there) defaults to the infinite sentinel. -/
def runtimeKey (r : OpRecord) : RTime :=
  r.runtime.getD RTime.inf

/-- Python `min(iterable, key=...)`: linear scan replacing the best only on a
strictly smaller key, hence the first minimal element wins; `none` models the
`ValueError` on an empty sequence. -/
def minFold (key : OpRecord → RTime) (best : OpRecord) (l : List OpRecord) : OpRecord :=
  l.foldl (fun b y => if RTime.ltb (key y) (key b) then y else b) best

/-- Python `min(l, key=key)` with its empty-sequence `ValueError` as `none`. -/
def pyMin (key : OpRecord → RTime) : List OpRecord → Option OpRecord
  | [] => none
  | x :: xs => some (minFold key x xs)

/-- The evaluate-and-store loop of `select_op` (gen_gemm.py lines 197-202):
returns (final state of the filtered list, records evaluated in order, early
result).  With `profile_all` false the first finite runtime returns
immediately; otherwise every record is evaluated and annotated. -/
def runLoop (evaluate : OpRecord → Shape → RTime) (M N K : Nat) (profile_all : Bool) :
    List OpRecord → List OpRecord × List OpRecord × Option OpRecord
  | [] => ([], [], none)
  | r :: rs =>
    if RTime.ltb (evaluate r (M, N, K)) RTime.inf && !profile_all then
      ({ r with runtime := some (evaluate r (M, N, K)) } :: rs,
       [{ r with runtime := some (evaluate r (M, N, K)) }],
       some { r with runtime := some (evaluate r (M, N, K)) })
    else
      ({ r with runtime := some (evaluate r (M, N, K)) } ::
         (runLoop evaluate M N K profile_all rs).1,
       { r with runtime := some (evaluate r (M, N, K)) } ::
         (runLoop evaluate M N K profile_all rs).2.1,
       (runLoop evaluate M N K profile_all rs).2.2)

/-- Observable outcome of one `select_op` call: the returned record (`none` for a
Python exception), the cache afterwards, and an event trace — whether the
catalog was enumerated, whether `compile_all` ran (and with multiprocessing),
and which candidates were evaluated, in order. -/
structure SelectOutcome where
  result : Option OpRecord
  cache' : List (Shape × OpRecord)
  enumerated : Bool
  compiled : Bool
  compiled_parallel : Bool
  evaluated : List OpRecord
deriving DecidableEq

/-- Embedding of `CutlassGemmProfiler.select_op` (gen_gemm.py lines 179-206).
`gen` stands for `GENERATOR_FUNC_TABLE[self.sm]` applied with
`op_creator=enumerate_gemm_operators` (external), `evaluate` for
`self.engine.evaluate` (external); `compile_all` has no modelled state effect
beyond the trace flags, since `evaluate` is the injected measurement oracle. -/
def select_op (gen : Nat → List OpRecord) (evaluate : OpRecord → Shape → RTime)
    (cache : List (Shape × OpRecord)) (M N K out_dtype : Nat)
    (profile_all use_multiprocessing : Bool) : SelectOutcome :=
  match lookupCache cache (M, N, K) with
  | some op => ⟨some op, cache, false, false, false, []⟩
  | none =>
    match filterAligned M N K (gen out_dtype) with
    | none => ⟨none, cache, true, false, false, []⟩
    | some ops =>
      match runLoop evaluate M N K profile_all ops with
      | (_, evaluated, some op) =>
        ⟨some op, ((M, N, K), op) :: cache, true, profile_all,
          profile_all && use_multiprocessing, evaluated⟩
      | (opsAfter, evaluated, none) =>
        match pyMin runtimeKey opsAfter with
        | some op =>
          ⟨some op, ((M, N, K), op) :: cache, true, profile_all,
            profile_all && use_multiprocessing, evaluated⟩
        | none =>
          ⟨none, cache, true, profile_all, profile_all && use_multiprocessing, evaluated⟩

/-- The annotation `op["runtime"] = out` applied to a whole candidate list. -/
def evalMap (evaluate : OpRecord → Shape → RTime) (s : Shape) (l : List OpRecord) :
    List OpRecord :=
  l.map (fun r => { r with runtime := some (evaluate r s) })

/-- Consistency of the redundant dict fields of an enumerated candidate with its
embedded `GemmOperation` — every record built by `mkCandidate` satisfies it. -/
def WellFormedRec (r : OpRecord) : Prop :=
  r.name = r.op.procedural_name ∧ r.tile_description = r.op.tile_description
    ∧ r.data_type.element_a = r.op.A.element ∧ r.alignment = r.op.A.alignment

instance (r : OpRecord) : Decidable (WellFormedRec r) := by
  unfold WellFormedRec
  infer_instance

/-! ### Concrete instances used to exercise the theorems -/

/-- Example tile descriptions (arch 80, distinct tile identifiers). -/
def tdEx : TileDescription := ⟨80, 3⟩

def tdEx1 : TileDescription := ⟨80, 1⟩

def tdEx2 : TileDescription := ⟨80, 2⟩

/-- Example data-type configuration. -/
def dtEx : DataTypeConfig := ⟨1, 1, 2, 2⟩

/-- A one-candidate catalog. -/
def enumEx : List OpRecord :=
  enumerate_gemm_operators [tdEx] dtEx [1] SwizzlingFunctor.Identity8

/-- The single candidate of `enumEx`. -/
def recEx : OpRecord := mkCandidate dtEx SwizzlingFunctor.Identity8 tdEx 1

/-- A two-candidate catalog (two tiles, alignment 1). -/
def enumEx2 : List OpRecord :=
  enumerate_gemm_operators [tdEx1, tdEx2] dtEx [1] SwizzlingFunctor.Identity8

/-- The candidates of `enumEx2`. -/
def recEx1 : OpRecord := mkCandidate dtEx SwizzlingFunctor.Identity8 tdEx1 1

def recEx2 : OpRecord := mkCandidate dtEx SwizzlingFunctor.Identity8 tdEx2 1

/-- An evaluation oracle on which every candidate fails (infinite sentinel). -/
def evalInfEx : OpRecord → Shape → RTime := fun _ _ => RTime.inf

/-- An evaluation oracle where the first tile is slow (9) and the second fast
(2), to exercise minimum selection and early exit. -/
def evalEx : OpRecord → Shape → RTime :=
  fun r _ => if r.tile_description.tid = 1 then RTime.fin 9 else RTime.fin 2

/-- An example pre-populated cache. -/
def cacheEx : List (Shape × OpRecord) := [((1, 1, 1), recEx)]

/-- An example kernel name with a single alignment token encoding 4. -/
def nameEx : List Char := ['x', '_', 'a', 'l', 'i', 'g', 'n', '4']

/-! ### Order lemmas for the runtime comparison -/

theorem RTime.ltb_inf (t : RTime) : RTime.ltb t RTime.inf = true ↔ t ≠ RTime.inf := by
  cases t <;> simp [RTime.ltb]

theorem RTime.ltb_irrefl (a : RTime) : RTime.ltb a a = false := by
  cases a <;> simp [RTime.ltb]

theorem RTime.ltb_trans {a b c : RTime} (h1 : RTime.ltb a b = true)
    (h2 : RTime.ltb b c = true) : RTime.ltb a c = true := by
  cases a <;> cases b <;> cases c <;> simp_all [RTime.ltb] <;> linarith

theorem RTime.lt_of_lt_of_nlt {a b c : RTime} (h1 : RTime.ltb a b = true)
    (h2 : RTime.ltb c b = false) : RTime.ltb a c = true := by
  cases a <;> cases b <;> cases c <;> simp_all [RTime.ltb] <;> linarith

theorem RTime.lt_of_nlt_of_lt {a b c : RTime} (h1 : RTime.ltb b a = false)
    (h2 : RTime.ltb b c = true) : RTime.ltb a c = true := by
  cases a <;> cases b <;> cases c <;> simp_all [RTime.ltb] <;> linarith

theorem RTime.ltb_of_nltb_of_ne {a b : RTime} (h1 : RTime.ltb a b = false)
    (h2 : a ≠ b) : RTime.ltb b a = true := by
  cases a <;> cases b <;> simp_all [RTime.ltb]
  rcases lt_or_eq_of_le h1 with h | h
  · exact h
  · simp [h] at h2

theorem RTime.ne_of_ltb {a b : RTime} (h : RTime.ltb a b = true) : a ≠ b := by
  cases a <;> cases b <;> simp_all [RTime.ltb]
  exact ne_of_lt h

/-! ### Characterization of Python `min` with a key: the first minimal element -/

theorem minFold_cons (key : OpRecord → RTime) (best y : OpRecord) (ys : List OpRecord) :
    minFold key best (y :: ys)
      = minFold key (if RTime.ltb (key y) (key best) then y else best) ys := by
  simp [minFold]

theorem minFold_spec (key : OpRecord → RTime) :
    ∀ (l : List OpRecord) (best : OpRecord),
      (∀ x ∈ best :: l, RTime.ltb (key x) (key (minFold key best l)) = false)
      ∧ (best :: l).find? (fun x => decide (key x = key (minFold key best l)))
          = some (minFold key best l) := by
  intro l
  induction l with
  | nil =>
    intro best
    refine ⟨?_, ?_⟩
    · intro x hx
      rcases List.mem_singleton.mp hx with rfl
      simpa [minFold] using RTime.ltb_irrefl (key x)
    · simp [minFold, List.find?]
  | cons y ys ih =>
    intro best
    by_cases h : RTime.ltb (key y) (key best) = true
    · have hm : minFold key best (y :: ys) = minFold key y ys := by
        rw [minFold_cons, if_pos h]
      rw [hm]
      obtain ⟨ih1, ih2⟩ := ih y
      have hym := ih1 y (List.mem_cons_self y ys)
      have hbestm : RTime.ltb (key best) (key (minFold key y ys)) = false := by
        cases hx : RTime.ltb (key best) (key (minFold key y ys)) with
        | false => rfl
        | true => exact absurd (RTime.ltb_trans h hx) (by simp [hym])
      constructor
      · intro x hx
        rcases List.mem_cons.mp hx with rfl | hx'
        · exact hbestm
        · exact ih1 x hx'
      · have hne : key best ≠ key (minFold key y ys) := by
          intro hkeq
          rw [hkeq] at h
          exact absurd h (by simp [hym])
        rw [List.find?_cons_of_neg _ (by simp [hne])]
        exact ih2
    · have hfalse : RTime.ltb (key y) (key best) = false := by
        cases hx : RTime.ltb (key y) (key best) with
        | true => exact absurd hx h
        | false => rfl
      have hm : minFold key best (y :: ys) = minFold key best ys := by
        rw [minFold_cons, if_neg (by simp [hfalse])]
      rw [hm]
      obtain ⟨ih1, ih2⟩ := ih best
      have hbestm := ih1 best (List.mem_cons_self best ys)
      have hym : RTime.ltb (key y) (key (minFold key best ys)) = false := by
        cases hx : RTime.ltb (key y) (key (minFold key best ys)) with
        | false => rfl
        | true => exact absurd (RTime.lt_of_lt_of_nlt hx hbestm) (by simp [hfalse])
      constructor
      · intro x hx
        rcases List.mem_cons.mp hx with rfl | hx'
        · exact hbestm
        rcases List.mem_cons.mp hx' with rfl | hx''
        · exact hym
        · exact ih1 x (List.mem_cons.mpr (Or.inr hx''))
      · by_cases hk : key best = key (minFold key best ys)
        · have hfind := ih2
          rw [List.find?_cons_of_pos _ (by simp [hk])] at hfind
          have hbm : best = minFold key best ys := by simpa using hfind
          rw [List.find?_cons_of_pos _ (by simp [hk]), ← hbm]
        · have hmb : RTime.ltb (key (minFold key best ys)) (key best) = true :=
            RTime.ltb_of_nltb_of_ne hbestm hk
          have hmy : RTime.ltb (key (minFold key best ys)) (key y) = true :=
            RTime.lt_of_lt_of_nlt hmb hfalse
          have hky : key y ≠ key (minFold key best ys) := by
            intro hc
            rw [hc] at hmy
            exact absurd hmy (by simp [RTime.ltb_irrefl])
          have hfind := ih2
          rw [List.find?_cons_of_neg _ (by simp [hk])] at hfind
          rw [List.find?_cons_of_neg _ (by simp [hk]),
            List.find?_cons_of_neg _ (by simp [hky])]
          exact hfind

theorem minFold_of_no_lt (key : OpRecord → RTime) (best : OpRecord) (l : List OpRecord)
    (h : ∀ y ∈ l, RTime.ltb (key y) (key best) = false) :
    minFold key best l = best := by
  induction l with
  | nil => rfl
  | cons y ys ih =>
    rw [minFold_cons, if_neg (by simp [h y (List.mem_cons_self y ys)])]
    exact ih (fun z hz => h z (List.mem_cons.mpr (Or.inr hz)))

/-! ### Behaviour of the evaluation loop -/

theorem mem_evalMap {evaluate : OpRecord → Shape → RTime} {s : Shape}
    {l : List OpRecord} {m : OpRecord} :
    m ∈ evalMap evaluate s l ↔ ∃ z ∈ l, { z with runtime := some (evaluate z s) } = m := by
  simp [evalMap]

theorem runLoop_profile_all (evaluate : OpRecord → Shape → RTime) (M N K : Nat) :
    ∀ l : List OpRecord,
      runLoop evaluate M N K true l
        = (evalMap evaluate (M, N, K) l, evalMap evaluate (M, N, K) l, none) := by
  intro l
  induction l with
  | nil => rfl
  | cons r rs ih => simp [runLoop, evalMap, ih]

theorem runLoop_all_inf (evaluate : OpRecord → Shape → RTime) (M N K : Nat)
    (profile_all : Bool) :
    ∀ l : List OpRecord, (∀ r ∈ l, evaluate r (M, N, K) = RTime.inf) →
      runLoop evaluate M N K profile_all l
        = (evalMap evaluate (M, N, K) l, evalMap evaluate (M, N, K) l, none) := by
  intro l
  induction l with
  | nil => intro _; rfl
  | cons r rs ih =>
    intro h
    have h0 : evaluate r (M, N, K) = RTime.inf := h r (List.mem_cons_self r rs)
    have hrec := ih (fun z hz => h z (List.mem_cons.mpr (Or.inr hz)))
    simp [runLoop, evalMap, h0, RTime.ltb, hrec]

theorem runLoop_early (evaluate : OpRecord → Shape → RTime) (M N K : Nat) :
    ∀ l : List OpRecord, (∃ r, r ∈ l ∧ evaluate r (M, N, K) ≠ RTime.inf) →
      ∃ i, ∃ hi : i < l.length,
        (∀ j, ∀ hj : j < l.length, j < i → evaluate l[j] (M, N, K) = RTime.inf)
        ∧ evaluate l[i] (M, N, K) ≠ RTime.inf
        ∧ runLoop evaluate M N K false l
            = (evalMap evaluate (M, N, K) (l.take (i + 1)) ++ l.drop (i + 1),
               evalMap evaluate (M, N, K) (l.take (i + 1)),
               some { l[i] with runtime := some (evaluate l[i] (M, N, K)) }) := by
  intro l
  induction l with
  | nil => rintro ⟨r, hr, -⟩; exact absurd hr (List.not_mem_nil r)
  | cons r rs ih =>
    rintro ⟨w, hw, hwfin⟩
    by_cases h0 : evaluate r (M, N, K) = RTime.inf
    · have hwrs : w ∈ rs := by
        rcases List.mem_cons.mp hw with rfl | h
        · exact absurd h0 hwfin
        · exact h
      obtain ⟨i, hi, hbefore, hfin, hloop⟩ := ih ⟨w, hwrs, hwfin⟩
      refine ⟨i + 1, by simpa using Nat.succ_lt_succ hi, ?_, ?_, ?_⟩
      · intro j hj hji
        cases j with
        | zero => simpa using h0
        | succ j' =>
          have hj' : j' < rs.length := by simpa using Nat.lt_of_succ_lt_succ hj
          simpa using hbefore j' hj' (Nat.lt_of_succ_lt_succ hji)
      · simpa using hfin
      · have hcond : RTime.ltb (evaluate r (M, N, K)) RTime.inf = false := by
          rw [h0]; rfl
        simp only [runLoop, hcond, Bool.false_and, Bool.not_false, if_neg,
          Bool.false_eq_true, not_false_eq_true]
        rw [hloop]
        simp [evalMap]
    · refine ⟨0, by simp, ?_, ?_, ?_⟩
      · intro j hj hj0
        exact absurd hj0 (Nat.not_lt_zero j)
      · simpa using h0
      · have hcond : RTime.ltb (evaluate r (M, N, K)) RTime.inf = true :=
          (RTime.ltb_inf _).mpr h0
        simp [runLoop, hcond, evalMap]

/-! ### The alignment-token scanner -/

theorem headAlign_cons_of_ne (x : Char) (l : List Char) (hx : x ≠ 'a') :
    headAlign (x :: l) = none := by
  unfold headAlign
  rw [if_neg]
  rintro ⟨h1, -⟩
  rw [List.take_succ_cons] at h1
  exact hx (List.head_eq_of_cons_eq h1)

theorem findAlignsAux_cons_none (x : Char) (l : List Char) (h : headAlign (x :: l) = none) :
    findAlignsAux 0 (x :: l) = findAlignsAux 0 l := by
  simp [findAlignsAux, h]

theorem findAligns_append_of_no_a :
    ∀ l1 l2 : List Char, (∀ c ∈ l1, c ≠ 'a') →
      findAlignsAux 0 (l1 ++ l2) = findAlignsAux 0 l2 := by
  intro l1
  induction l1 with
  | nil => intro l2 _; rfl
  | cons x xs ih =>
    intro l2 h
    rw [List.cons_append,
      findAlignsAux_cons_none _ _ (headAlign_cons_of_ne _ _ (h x (List.mem_cons_self x xs)))]
    exact ih l2 (fun c hc => h c (List.mem_cons.mpr (Or.inr hc)))

theorem procedural_name_decomp (op : GemmOperation) :
    op.procedural_name
      = ('k' :: (List.replicate op.tile_description.tid 't' ++
          ('_' :: (List.replicate op.A.element 'd' ++ ['_']))))
        ++ ('a' :: 'l' :: 'i' :: 'g' :: 'n' :: [alignDigit op.A.alignment]) := by
  simp [GemmOperation.procedural_name]

theorem findAligns_procedural (op : GemmOperation)
    (ha : op.A.alignment = 1 ∨ op.A.alignment = 2 ∨ op.A.alignment = 4 ∨ op.A.alignment = 8) :
    findAligns op.procedural_name = [alignDigit op.A.alignment] := by
  have hpre : ∀ c ∈ ('k' :: (List.replicate op.tile_description.tid 't' ++
      ('_' :: (List.replicate op.A.element 'd' ++ ['_'])))), c ≠ 'a' := by
    intro c hc
    rcases List.mem_cons.mp hc with rfl | hc1
    · decide
    rcases List.mem_append.mp hc1 with hrep | hc2
    · rw [List.eq_of_mem_replicate hrep]; decide
    rcases List.mem_cons.mp hc2 with rfl | hc3
    · decide
    rcases List.mem_append.mp hc3 with hrep | hc4
    · rw [List.eq_of_mem_replicate hrep]; decide
    · have hconst := List.mem_singleton.mp hc4
      subst hconst
      decide
  rw [findAligns, procedural_name_decomp, findAligns_append_of_no_a _ _ hpre]
  rcases ha with h | h | h | h <;> rw [h] <;> decide

/-! ### Enumeration lemmas -/

theorem mem_enumerate {tiles : List TileDescription} {dt : DataTypeConfig}
    {aligns : List Nat} {swz : SwizzlingFunctor} {r : OpRecord} :
    r ∈ enumerate_gemm_operators tiles dt aligns swz ↔
      ∃ t ∈ tiles, ∃ a ∈ aligns, r = mkCandidate dt swz t a := by
  simp [enumerate_gemm_operators, eq_comm]

theorem enumerate_length (tiles : List TileDescription) (dt : DataTypeConfig)
    (aligns : List Nat) (swz : SwizzlingFunctor) :
    (enumerate_gemm_operators tiles dt aligns swz).length
      = tiles.length * aligns.length := by
  induction tiles with
  | nil => simp [enumerate_gemm_operators]
  | cons t ts ih =>
    simp only [enumerate_gemm_operators, List.flatMap_cons, List.length_append,
      List.length_map, List.length_cons] at ih ⊢
    rw [ih, Nat.succ_mul, Nat.add_comm]

theorem enumerate_getElem (dt : DataTypeConfig) (swz : SwizzlingFunctor) :
    ∀ (tiles : List TileDescription) (aligns : List Nat) (i j : Nat)
      (t : TileDescription) (a : Nat),
      tiles[i]? = some t → aligns[j]? = some a →
      (enumerate_gemm_operators tiles dt aligns swz)[i * aligns.length + j]?
        = some (mkCandidate dt swz t a) := by
  intro tiles
  induction tiles with
  | nil =>
    intro aligns i j t a ht
    simp at ht
  | cons t0 ts ih =>
    intro aligns i j t a ht ha
    have henum : enumerate_gemm_operators (t0 :: ts) dt aligns swz
        = aligns.map (mkCandidate dt swz t0) ++ enumerate_gemm_operators ts dt aligns swz := by
      simp [enumerate_gemm_operators]
    cases i with
    | zero =>
      have ht0 : t0 = t := by simpa using ht
      have hj : j < aligns.length := by
        by_contra hjge
        rw [List.getElem?_eq_none (Nat.le_of_not_lt hjge)] at ha
        exact Option.noConfusion ha
      rw [henum, Nat.zero_mul, Nat.zero_add,
        List.getElem?_append_left (by simpa using hj), List.getElem?_map, ha, ht0]
      rfl
    | succ i' =>
      have ht' : ts[i']? = some t := by simpa using ht
      have harith : (i' + 1) * aligns.length + j
          = aligns.length + (i' * aligns.length + j) := by
        rw [Nat.succ_mul]; omega
      rw [henum, harith,
        List.getElem?_append_right (by simp), List.length_map, Nat.add_sub_cancel_left]
      exact ih aligns i' j t a ht' ha

theorem wellFormed_mkCandidate (dt : DataTypeConfig) (swz : SwizzlingFunctor)
    (t : TileDescription) (a : Nat) : WellFormedRec (mkCandidate dt swz t a) := by
  refine ⟨rfl, rfl, rfl, rfl⟩

/-! ### Claim theorems -/

/-- C4: for every candidate name carrying exactly one alignment token encoding
alignment `a`, and positive M, N, K, `check_align` returns true iff M, N and K
are each evenly divisible by `a`; in particular it is always true for `a = 1`
and false for `a = 8` when any of M, N, K is one less than a multiple of 8. -/
theorem C4_check_align_divisibility (name : List Char) (c : Char) (a M N K : Nat)
    (_hM : 0 < M) (_hN : 0 < N) (_hK : 0 < K)
    (hc : findAligns name = [c]) (ha : tokVal c = some a) :
    (check_align name M N K = CheckAlignResult.ok true ↔ (M % a = 0 ∧ N % a = 0 ∧ K % a = 0))
    ∧ (a = 1 → check_align name M N K = CheckAlignResult.ok true)
    ∧ (a = 8 → (M % 8 = 7 ∨ N % 8 = 7 ∨ K % 8 = 7) →
        check_align name M N K = CheckAlignResult.ok false) := by
  have hca : check_align name M N K
      = CheckAlignResult.ok (decide (M % a = 0) && decide (N % a = 0) && decide (K % a = 0)) := by
    simp [check_align, hc, ha]
  refine ⟨?_, ?_, ?_⟩
  · rw [hca]
    simp [and_assoc]
  · intro h1
    subst h1
    rw [hca]
    simp [Nat.mod_one]
  · intro h8 hd
    subst h8
    rw [hca]
    rcases hd with h | h | h <;> simp [h]

/-- C4 witness: the name `x_align4` with shape (8, 16, 24). -/
theorem C4_witness :
    (0 < 8 ∧ 0 < 16 ∧ 0 < 24 ∧ findAligns nameEx = ['4'] ∧ tokVal '4' = some 4)
    ∧ ((check_align nameEx 8 16 24 = CheckAlignResult.ok true
          ↔ (8 % 4 = 0 ∧ 16 % 4 = 0 ∧ 24 % 4 = 0))
       ∧ (4 = 1 → check_align nameEx 8 16 24 = CheckAlignResult.ok true)
       ∧ (4 = 8 → (8 % 8 = 7 ∨ 16 % 8 = 7 ∨ 24 % 8 = 7) →
           check_align nameEx 8 16 24 = CheckAlignResult.ok false)) :=
  ⟨⟨by decide, by decide, by decide, by decide, by decide⟩,
   C4_check_align_divisibility nameEx '4' 4 8 16 24 (by decide) (by decide) (by decide)
     (by decide) (by decide)⟩

/-- C7: `check_align` signals the failed assertion exactly when the name carries
zero or more than one alignment tokens, and for names produced by the catalog's
naming convention (alignments drawn from {1, 2, 4, 8}) the assertion branch is
unreachable. -/
theorem C7_check_align_assertion (name : List Char) (M N K : Nat) :
    (check_align name M N K = CheckAlignResult.assertionError ↔ (findAligns name).length ≠ 1)
    ∧ (∀ (tiles : List TileDescription) (dt : DataTypeConfig) (aligns : List Nat)
        (swz : SwizzlingFunctor) (r : OpRecord),
        (∀ a ∈ aligns, a = 1 ∨ a = 2 ∨ a = 4 ∨ a = 8) →
        r ∈ enumerate_gemm_operators tiles dt aligns swz →
        check_align r.name M N K ≠ CheckAlignResult.assertionError) := by
  constructor
  · rcases h : findAligns name with - | ⟨c, rest⟩
    · simp [check_align, h]
    rcases rest with - | ⟨c2, t⟩
    · simp [check_align, h]
      cases htok : tokVal c <;> simp [htok]
    · simp [check_align, h]
  · intro tiles dt aligns swz r haligns hmem
    obtain ⟨t, -, a, haa, rfl⟩ := mem_enumerate.mp hmem
    have hal : (mkCandidate dt swz t a).op.A.alignment = a := rfl
    have hfa : findAligns (mkCandidate dt swz t a).name = [alignDigit a] := by
      have hfa0 := findAligns_procedural (mkCandidate dt swz t a).op
        (by rw [hal]; exact haligns a haa)
      rw [hal] at hfa0
      exact hfa0
    intro hcontra
    rcases htok : tokVal (alignDigit a) with - | v
    · simp [check_align, hfa, htok] at hcontra
    · simp [check_align, hfa, htok] at hcontra

/-- C7 witness: the enumerated candidate `recEx` never triggers the assertion. -/
theorem C7_witness :
    ((∀ a ∈ [1], a = 1 ∨ a = 2 ∨ a = 4 ∨ a = 8)
      ∧ recEx ∈ enumerate_gemm_operators [tdEx] dtEx [1] SwizzlingFunctor.Identity8)
    ∧ check_align recEx.name 3 3 3 ≠ CheckAlignResult.assertionError :=
  ⟨⟨by decide, by decide⟩,
   (C7_check_align_assertion recEx.name 3 3 3).2 [tdEx] dtEx [1] SwizzlingFunctor.Identity8
     recEx (by decide) (by decide)⟩

/-- C9: `create_gemm_operator_with_epilogue` builds A row-major, B column-major
and C row-major at the given alignment, uses the batched swizzle exactly when
`batched` is set (regardless of the supplied functor), and installs the epilogue
looked up for `op_type`; as a plain function of its arguments it is pure. -/
theorem C9_create_operator_layouts (op_type : Nat) (td : TileDescription)
    (dt : DataTypeConfig) (al : Nat) (swz : SwizzlingFunctor) (batched : Bool) :
    ((create_gemm_operator_with_epilogue op_type td dt al swz batched).2.op.A
        = ⟨dt.element_a, LayoutType.RowMajor, al⟩)
    ∧ ((create_gemm_operator_with_epilogue op_type td dt al swz batched).2.op.B
        = ⟨dt.element_b, LayoutType.ColumnMajor, al⟩)
    ∧ ((create_gemm_operator_with_epilogue op_type td dt al swz batched).2.op.C
        = ⟨dt.element_c, LayoutType.RowMajor, al⟩)
    ∧ ((create_gemm_operator_with_epilogue op_type td dt al swz batched).2.op.swizzling_functor
        = if batched then SwizzlingFunctor.Batched else swz)
    ∧ ((create_gemm_operator_with_epilogue op_type td dt al swz batched).2.op.epilogue_functor
        = (EPILOGUE_MAP op_type).1) :=
  ⟨rfl, rfl, rfl, rfl, rfl⟩

/-- C10: `get_default` succeeds exactly when the default-table name is carried
by exactly one enumerated candidate; the assertion fires both when the name is
absent and when several candidates carry it. -/
theorem C10_get_default_unique (op_type : Nat) (ops : List OpRecord)
    (default_kernel_name : List Char) (batched : Bool) :
    (get_default op_type ops default_kernel_name batched).isSome
      = decide ((ops.filter (fun op => decide (op.name = default_kernel_name))).length = 1) := by
  rcases h : ops.filter (fun op => decide (op.name = default_kernel_name))
    with - | ⟨x, - | ⟨y, t⟩⟩ <;> simp [get_default, h]

/-- C5: a cache hit returns the cached record unchanged, mutates nothing, and
performs no enumeration, compilation or evaluation, for any `out_dtype`,
`profile_all` and `use_multiprocessing` arguments (the key is the shape only). -/
theorem C5_cached_shape (gen : Nat → List OpRecord) (evaluate : OpRecord → Shape → RTime)
    (cache : List (Shape × OpRecord)) (M N K : Nat) (op : OpRecord)
    (hhit : lookupCache cache (M, N, K) = some op) :
    ∀ (out_dtype : Nat) (profile_all use_multiprocessing : Bool),
      select_op gen evaluate cache M N K out_dtype profile_all use_multiprocessing
        = ⟨some op, cache, false, false, false, []⟩ := by
  intro out_dtype pa um
  simp [select_op, hhit]

/-- C5 witness: the cached shape (1, 1, 1) answered from `cacheEx`. -/
theorem C5_witness :
    lookupCache cacheEx (1, 1, 1) = some recEx
    ∧ select_op (fun _ => enumEx) evalInfEx cacheEx 1 1 1 42 false true
        = ⟨some recEx, cacheEx, false, false, false, []⟩ :=
  ⟨by decide,
   C5_cached_shape (fun _ => enumEx) evalInfEx cacheEx 1 1 1 recEx (by decide) 42 false true⟩

/-- C8: `enumerate_gemm_operators` yields exactly one candidate per (tile
description, alignment) pair of the Cartesian product, placed at the position
dictated by the nested-loop order (tiles outer, alignments inner), and every
produced candidate carries the fixed default epilogue (plain linear
combination). -/
theorem C8_enumerate_product (tiles : List TileDescription) (dt : DataTypeConfig)
    (aligns : List Nat) (swz : SwizzlingFunctor) :
    ((enumerate_gemm_operators tiles dt aligns swz).length = tiles.length * aligns.length)
    ∧ (∀ (i j : Nat) (t : TileDescription) (a : Nat),
        tiles[i]? = some t → aligns[j]? = some a →
        (enumerate_gemm_operators tiles dt aligns swz)[i * aligns.length + j]?
          = some (mkCandidate dt swz t a))
    ∧ (∀ r ∈ enumerate_gemm_operators tiles dt aligns swz,
        r.op.epilogue_functor = EpilogueFunctor.LinearCombination) := by
  refine ⟨enumerate_length tiles dt aligns swz, ?_, ?_⟩
  · intro i j t a ht ha
    exact enumerate_getElem dt swz tiles aligns i j t a ht ha
  · intro r hr
    obtain ⟨t, -, a, -, rfl⟩ := mem_enumerate.mp hr
    rfl

/-- C8 witness: in a 2-tile × 2-alignment catalog, position 1·2+0 holds the
candidate for the second tile and first alignment. -/
theorem C8_witness :
    (([tdEx1, tdEx2] : List TileDescription)[1]? = some tdEx2
      ∧ ([1, 2] : List Nat)[0]? = some 1)
    ∧ (enumerate_gemm_operators [tdEx1, tdEx2] dtEx [1, 2] SwizzlingFunctor.Identity8)[1 * 2 + 0]?
        = some (mkCandidate dtEx SwizzlingFunctor.Identity8 tdEx2 1) :=
  ⟨⟨by decide, by decide⟩,
   (C8_enumerate_product [tdEx1, tdEx2] dtEx [1, 2] SwizzlingFunctor.Identity8).2.1 1 0 tdEx2 1
     (by decide) (by decide)⟩

/-- C6: when the default-table name resolves against the enumerated catalog
(exactly one candidate carries it, as the source's assertion demands),
`get_default` returns that candidate re-instantiated with the caller's epilogue
kind: the returned canonical name equals the default-table entry, and the tile
description, alignment and swizzle policy are unchanged. -/
theorem C6_get_default_resolves (op_type : Nat) (ops : List OpRecord)
    (default_kernel_name : List Char) (batched : Bool) (r : OpRecord)
    (hwf : WellFormedRec r)
    (hfilter : ops.filter (fun op => decide (op.name = default_kernel_name)) = [r]) :
    ∃ r', get_default op_type ops default_kernel_name batched = some r'
      ∧ r'.name = default_kernel_name
      ∧ r'.tile_description = r.tile_description
      ∧ r'.alignment = r.alignment
      ∧ r'.swizzle_functor = r.swizzle_functor
      ∧ ∃ ks, r'.opdef = some ks
          ∧ ks.op.epilogue_functor = (EPILOGUE_MAP op_type).1
          ∧ ks.op.tile_description = r.tile_description
          ∧ ks.op.A.alignment = r.alignment := by
  obtain ⟨hname, htile, helem, halign⟩ := hwf
  have hrname : r.name = default_kernel_name := by
    have hrmem : r ∈ ops.filter (fun op => decide (op.name = default_kernel_name)) := by
      rw [hfilter]
      exact List.mem_singleton.mpr rfl
    exact of_decide_eq_true (List.mem_filter.mp hrmem).2
  have hgd : get_default op_type ops default_kernel_name batched
      = some { r with
          name := (create_gemm_operator_with_epilogue op_type r.tile_description r.data_type
            r.alignment r.swizzle_functor batched).1,
          opdef := some (create_gemm_operator_with_epilogue op_type r.tile_description
            r.data_type r.alignment r.swizzle_functor batched).2 } := by
    simp [get_default, hfilter]
  have hnewname : (create_gemm_operator_with_epilogue op_type r.tile_description r.data_type
      r.alignment r.swizzle_functor batched).1 = r.op.procedural_name := by
    simp [create_gemm_operator_with_epilogue, GemmOperation.procedural_name,
      htile, helem, halign]
  refine ⟨_, hgd, ?_, rfl, rfl, rfl, _, rfl, rfl, rfl, rfl⟩
  show (create_gemm_operator_with_epilogue op_type r.tile_description r.data_type
    r.alignment r.swizzle_functor batched).1 = default_kernel_name
  rw [hnewname, ← hname, hrname]

/-- C6 witness: `recEx`'s own name used as the default-table entry over the
one-candidate catalog `enumEx`, with epilogue kind 2. -/
theorem C6_witness :
    (WellFormedRec recEx
      ∧ enumEx.filter (fun op => decide (op.name = recEx.name)) = [recEx])
    ∧ ∃ r', get_default 2 enumEx recEx.name false = some r'
        ∧ r'.name = recEx.name
        ∧ r'.tile_description = recEx.tile_description
        ∧ r'.alignment = recEx.alignment
        ∧ r'.swizzle_functor = recEx.swizzle_functor
        ∧ ∃ ks, r'.opdef = some ks
            ∧ ks.op.epilogue_functor = (EPILOGUE_MAP 2).1
            ∧ ks.op.tile_description = recEx.tile_description
            ∧ ks.op.A.alignment = recEx.alignment :=
  ⟨⟨by decide, by decide⟩,
   C6_get_default_resolves 2 enumEx recEx.name false recEx (by decide) (by decide)⟩

/-- C1 counterexample: for shape (1, 1, 1), the single feasible candidate of
`enumEx` evaluates to the infinite sentinel, yet `select_op` does not fail — it
returns that candidate annotated with infinite runtime and inserts an entry for
(1, 1, 1) into the cache, contradicting "Search Exhausted ... nothing is
cached". -/
theorem C1_counterexample :
    filterAligned 1 1 1 enumEx = some [recEx]
    ∧ evalInfEx recEx (1, 1, 1) = RTime.inf
    ∧ (select_op (fun _ => enumEx) evalInfEx [] 1 1 1 0 true false).result
        = some { recEx with runtime := some RTime.inf }
    ∧ lookupCache (select_op (fun _ => enumEx) evalInfEx [] 1 1 1 0 true false).cache' (1, 1, 1)
        = some { recEx with runtime := some RTime.inf } :=
  ⟨rfl, rfl, rfl, rfl⟩

/-- C1 (amended): on a cache miss, if no feasible candidate exists the call
fails (the `min` of an empty sequence raises) and nothing is cached; but if
feasible candidates exist and every one evaluates to the infinite sentinel, the
call does not fail: it returns the first feasible candidate in enumeration
order, with the infinite runtime, and inserts it into the cache. -/
theorem C1_amended_search_exhausted (gen : Nat → List OpRecord)
    (evaluate : OpRecord → Shape → RTime) (cache : List (Shape × OpRecord))
    (M N K out_dtype : Nat) (profile_all use_multiprocessing : Bool)
    (hmiss : lookupCache cache (M, N, K) = none) :
    (filterAligned M N K (gen out_dtype) = some [] →
      (select_op gen evaluate cache M N K out_dtype profile_all use_multiprocessing).result
          = none
      ∧ (select_op gen evaluate cache M N K out_dtype profile_all use_multiprocessing).cache'
          = cache)
    ∧ (∀ (f0 : OpRecord) (frest : List OpRecord),
        filterAligned M N K (gen out_dtype) = some (f0 :: frest) →
        (∀ r ∈ f0 :: frest, evaluate r (M, N, K) = RTime.inf) →
        (select_op gen evaluate cache M N K out_dtype profile_all use_multiprocessing).result
            = some { f0 with runtime := some RTime.inf }
        ∧ (select_op gen evaluate cache M N K out_dtype profile_all use_multiprocessing).cache'
            = ((M, N, K), { f0 with runtime := some RTime.inf }) :: cache) := by
  constructor
  · intro hempty
    have hloop := runLoop_all_inf evaluate M N K profile_all [] (by intro r hr; cases hr)
    constructor <;> simp [select_op, hmiss, hempty, hloop, evalMap, pyMin]
  · intro f0 frest hfe hallinf
    have hloop := runLoop_all_inf evaluate M N K profile_all (f0 :: frest) hallinf
    have h0 : evaluate f0 (M, N, K) = RTime.inf := hallinf f0 (List.mem_cons_self f0 frest)
    have hkeys : ∀ y ∈ evalMap evaluate (M, N, K) frest,
        RTime.ltb (runtimeKey y) (runtimeKey { f0 with runtime := some RTime.inf }) = false := by
      intro y hy
      obtain ⟨z, hz, rfl⟩ := List.mem_map.mp hy
      have hzinf : evaluate z (M, N, K) = RTime.inf :=
        hallinf z (List.mem_cons.mpr (Or.inr hz))
      simp [runtimeKey, hzinf, RTime.ltb]
    have hmin : pyMin runtimeKey (evalMap evaluate (M, N, K) (f0 :: frest))
        = some { f0 with runtime := some RTime.inf } := by
      have hhead : evalMap evaluate (M, N, K) (f0 :: frest)
          = { f0 with runtime := some RTime.inf } :: evalMap evaluate (M, N, K) frest := by
        simp [evalMap, h0]
      rw [hhead]
      simp only [pyMin]
      rw [minFold_of_no_lt _ _ _ hkeys]
    constructor <;> simp [select_op, hmiss, hfe, hloop, hmin]

/-- C1 witness: the all-infinite scenario of the amended statement, instantiated
on the one-candidate catalog `enumEx`. -/
theorem C1_witness :
    (lookupCache ([] : List (Shape × OpRecord)) (1, 1, 1) = none
      ∧ filterAligned 1 1 1 enumEx = some (recEx :: [])
      ∧ (∀ r ∈ recEx :: ([] : List OpRecord), evalInfEx r (1, 1, 1) = RTime.inf))
    ∧ ((select_op (fun _ => enumEx) evalInfEx [] 1 1 1 0 false false).result
          = some { recEx with runtime := some RTime.inf }
       ∧ (select_op (fun _ => enumEx) evalInfEx [] 1 1 1 0 false false).cache'
          = ((1, 1, 1), { recEx with runtime := some RTime.inf }) :: []) :=
  ⟨⟨by decide, by decide, by decide⟩,
   (C1_amended_search_exhausted (fun _ => enumEx) evalInfEx [] 1 1 1 0 false false
     (by decide)).2 recEx [] (by decide) (by decide)⟩

/-- C2: on a cache miss with `profile_all = true` and at least one feasible
candidate of finite runtime, the selected record is a feasible candidate whose
runtime is minimal among all feasible candidates; it is the first one (in
enumeration order) attaining that minimum, its runtime is finite, it is
inserted into the cache, and every feasible candidate was evaluated. -/
theorem C2_profile_all_minimum (gen : Nat → List OpRecord)
    (evaluate : OpRecord → Shape → RTime) (cache : List (Shape × OpRecord))
    (M N K out_dtype : Nat) (use_multiprocessing : Bool) (fops : List OpRecord)
    (hmiss : lookupCache cache (M, N, K) = none)
    (hfilter : filterAligned M N K (gen out_dtype) = some fops)
    (hfin : ∃ r, r ∈ fops ∧ evaluate r (M, N, K) ≠ RTime.inf) :
    ∃ m, (select_op gen evaluate cache M N K out_dtype true use_multiprocessing).result
        = some m
      ∧ m ∈ evalMap evaluate (M, N, K) fops
      ∧ (∀ x ∈ evalMap evaluate (M, N, K) fops,
          RTime.ltb (runtimeKey x) (runtimeKey m) = false)
      ∧ (evalMap evaluate (M, N, K) fops).find? (fun x => decide (runtimeKey x = runtimeKey m))
          = some m
      ∧ (∃ q, m.runtime = some (RTime.fin q))
      ∧ (select_op gen evaluate cache M N K out_dtype true use_multiprocessing).cache'
          = ((M, N, K), m) :: cache
      ∧ (select_op gen evaluate cache M N K out_dtype true use_multiprocessing).evaluated
          = evalMap evaluate (M, N, K) fops := by
  obtain ⟨w, hw, hwfin⟩ := hfin
  have hloop := runLoop_profile_all evaluate M N K fops
  rcases fops with - | ⟨f0, frest⟩
  · exact absurd hw (List.not_mem_nil w)
  have hhead : evalMap evaluate (M, N, K) (f0 :: frest)
      = { f0 with runtime := some (evaluate f0 (M, N, K)) }
          :: evalMap evaluate (M, N, K) frest := by
    simp [evalMap]
  have hmin : pyMin runtimeKey (evalMap evaluate (M, N, K) (f0 :: frest))
      = some (minFold runtimeKey { f0 with runtime := some (evaluate f0 (M, N, K)) }
          (evalMap evaluate (M, N, K) frest)) := by
    rw [hhead]
    simp only [pyMin]
  have hspec := minFold_spec runtimeKey (evalMap evaluate (M, N, K) frest)
    { f0 with runtime := some (evaluate f0 (M, N, K)) }
  rw [hhead.symm] at hspec
  refine ⟨minFold runtimeKey { f0 with runtime := some (evaluate f0 (M, N, K)) }
    (evalMap evaluate (M, N, K) frest), ?_, ?_, ?_, ?_, ?_, ?_, ?_⟩
  · simp [select_op, hmiss, hfilter, hloop, hmin]
  · exact List.mem_of_find?_eq_some hspec.2
  · exact hspec.1
  · exact hspec.2
  · have hmmem := List.mem_of_find?_eq_some hspec.2
    obtain ⟨z, hz, hzeq⟩ := mem_evalMap.mp hmmem
    have hwmem : { w with runtime := some (evaluate w (M, N, K)) }
        ∈ evalMap evaluate (M, N, K) (f0 :: frest) := by
      simp only [evalMap]
      exact List.mem_map_of_mem _ hw
    have hnltb := hspec.1 _ hwmem
    rcases hq : evaluate z (M, N, K) with q | -
    · exact ⟨q, by rw [← hzeq]; simp [hq]⟩
    · exfalso
      have hkm : runtimeKey (minFold runtimeKey
          { f0 with runtime := some (evaluate f0 (M, N, K)) }
          (evalMap evaluate (M, N, K) frest)) = RTime.inf := by
        rw [← hzeq]
        simp [runtimeKey, hq]
      have htrue : RTime.ltb (runtimeKey { w with runtime := some (evaluate w (M, N, K)) })
          (runtimeKey (minFold runtimeKey { f0 with runtime := some (evaluate f0 (M, N, K)) }
            (evalMap evaluate (M, N, K) frest))) = true := by
        rw [hkm]
        exact (RTime.ltb_inf _).mpr hwfin
      rw [hnltb] at htrue
      exact Bool.noConfusion htrue
  · simp [select_op, hmiss, hfilter, hloop, hmin]
  · simp [select_op, hmiss, hfilter, hloop, hmin]

/-- C2 witness: the two-candidate catalog `enumEx2` under `evalEx` (runtimes 9
and 2): full profiling selects the faster second candidate. -/
theorem C2_witness :
    (lookupCache ([] : List (Shape × OpRecord)) (2, 2, 2) = none
      ∧ filterAligned 2 2 2 enumEx2 = some enumEx2
      ∧ (∃ r, r ∈ enumEx2 ∧ evalEx r (2, 2, 2) ≠ RTime.inf))
    ∧ ∃ m, (select_op (fun _ => enumEx2) evalEx [] 2 2 2 0 true false).result = some m
        ∧ m ∈ evalMap evalEx (2, 2, 2) enumEx2
        ∧ (∀ x ∈ evalMap evalEx (2, 2, 2) enumEx2,
            RTime.ltb (runtimeKey x) (runtimeKey m) = false)
        ∧ (evalMap evalEx (2, 2, 2) enumEx2).find?
            (fun x => decide (runtimeKey x = runtimeKey m)) = some m
        ∧ (∃ q, m.runtime = some (RTime.fin q))
        ∧ (select_op (fun _ => enumEx2) evalEx [] 2 2 2 0 true false).cache'
            = ((2, 2, 2), m) :: []
        ∧ (select_op (fun _ => enumEx2) evalEx [] 2 2 2 0 true false).evaluated
            = evalMap evalEx (2, 2, 2) enumEx2 :=
  ⟨⟨by decide, by decide, by decide⟩,
   C2_profile_all_minimum (fun _ => enumEx2) evalEx [] 2 2 2 0 false enumEx2
     (by decide) (by decide) (by decide)⟩

/-- C3: on a cache miss with `profile_all = false` and some feasible candidate
of finite runtime, the selected record is the first candidate in enumeration
order whose evaluation is finite; it is inserted into the cache, and only the
candidates up to and including it were evaluated — later candidates are never
evaluated, even if faster. -/
theorem C3_early_exit (gen : Nat → List OpRecord)
    (evaluate : OpRecord → Shape → RTime) (cache : List (Shape × OpRecord))
    (M N K out_dtype : Nat) (use_multiprocessing : Bool) (fops : List OpRecord)
    (hmiss : lookupCache cache (M, N, K) = none)
    (hfilter : filterAligned M N K (gen out_dtype) = some fops)
    (hfin : ∃ r, r ∈ fops ∧ evaluate r (M, N, K) ≠ RTime.inf) :
    ∃ i, ∃ hi : i < fops.length,
      (∀ j, ∀ hj : j < fops.length, j < i → evaluate fops[j] (M, N, K) = RTime.inf)
      ∧ evaluate fops[i] (M, N, K) ≠ RTime.inf
      ∧ (select_op gen evaluate cache M N K out_dtype false use_multiprocessing).result
          = some { fops[i] with runtime := some (evaluate fops[i] (M, N, K)) }
      ∧ (select_op gen evaluate cache M N K out_dtype false use_multiprocessing).cache'
          = ((M, N, K), { fops[i] with runtime := some (evaluate fops[i] (M, N, K)) }) :: cache
      ∧ (select_op gen evaluate cache M N K out_dtype false use_multiprocessing).evaluated
          = evalMap evaluate (M, N, K) (fops.take (i + 1)) := by
  obtain ⟨i, hi, hbefore, hfinite, hloop⟩ := runLoop_early evaluate M N K fops hfin
  refine ⟨i, hi, hbefore, hfinite, ?_, ?_, ?_⟩ <;> simp [select_op, hmiss, hfilter, hloop]

/-- C3 witness: under `evalEx` the first candidate of `enumEx2` already has a
finite runtime (9), so early exit returns it and never evaluates the faster
second candidate (2). -/
theorem C3_witness :
    (lookupCache ([] : List (Shape × OpRecord)) (2, 2, 2) = none
      ∧ filterAligned 2 2 2 enumEx2 = some enumEx2
      ∧ (∃ r, r ∈ enumEx2 ∧ evalEx r (2, 2, 2) ≠ RTime.inf))
    ∧ ∃ i, ∃ hi : i < enumEx2.length,
        (∀ j, ∀ hj : j < enumEx2.length, j < i → evalEx enumEx2[j] (2, 2, 2) = RTime.inf)
        ∧ evalEx enumEx2[i] (2, 2, 2) ≠ RTime.inf
        ∧ (select_op (fun _ => enumEx2) evalEx [] 2 2 2 0 false false).result
            = some { enumEx2[i] with runtime := some (evalEx enumEx2[i] (2, 2, 2)) }
        ∧ (select_op (fun _ => enumEx2) evalEx [] 2 2 2 0 false false).cache'
            = ((2, 2, 2), { enumEx2[i] with runtime := some (evalEx enumEx2[i] (2, 2, 2)) }) :: []
        ∧ (select_op (fun _ => enumEx2) evalEx [] 2 2 2 0 false false).evaluated
            = evalMap evalEx (2, 2, 2) (enumEx2.take (i + 1)) :=
  ⟨⟨by decide, by decide, by decide⟩,
   C3_early_exit (fun _ => enumEx2) evalEx [] 2 2 2 0 false enumEx2
     (by decide) (by decide) (by decide)⟩

end CutlassGemm
